import Mathlib

set_option linter.unusedVariables false
set_option maxRecDepth 8000

/-! Shallow embedding of the cross-chain bridge confirmation core of
go-simplechain:

* `cross/trigger/simpletrigger/subscriber/unconfirmed.go` — the unconfirmed
  ledger (`unconfirmedBlockLog(s)`, `add`, `insert`, `shift`) together with
  the inline log decoder of `shift`;
* `archive/signTx/main.go` — the anchor signing / relay tool (`handleTx`,
  `MakeEvent`, `TakerEvent`, `parseContractLogs`, `parseCrossChainEvents`).

Conventions of the embedding:

* Go `[]byte` values are `List Nat`; `common.Hash` (32 bytes) and
  `common.Address` (20 bytes) are byte lists as well.
* Go `uint64` arithmetic is `Nat` with an explicit `% 2 ^ 64` wherever the
  source adds or converts machine words.
* A Go slice expression `b[lo:hi]` whose bounds can be violated at run time
  (a bounds panic) is modelled by `goSlice`, returning `Option`; code paths
  on which the source program panics are modelled in `Except Unit`, with
  `.error ()` standing for the abort.
* External collaborators (chain client, keys, rlp, cross/core constructors)
  are oracles passed in as record fields; they are out of scope per the spec.
-/

/-- Go byte sequences. -/
abbrev Bytes := List Nat

/-- `common.Hash` (32-byte word), as a byte list. -/
abbrev Hash := List Nat

/-- `common.Address` (20 bytes), as a byte list. -/
abbrev Address := List Nat

/-- `common.HashLength` = 32. -/
def HashLength : Nat := 32

/-- `common.AddressLength` = 20. -/
def AddressLength : Nat := 20

/-- 2 ^ 64, the modulus of Go `uint64` arithmetic. -/
def U64 : Nat := 2 ^ 64

/-- The Go zero value of `common.Hash`. -/
def zeroHash : Hash := List.replicate HashLength 0

/-- The Go zero value of `common.Address`. -/
def zeroAddress : Address := List.replicate AddressLength 0

/-- A statically in-bounds Go slice `b[lo:hi]` (used only where a prior
length check makes the access safe, so the Go code cannot panic there). -/
def sliceN (b : Bytes) (lo hi : Nat) : Bytes := (b.drop lo).take (hi - lo)

/-- A Go slice `b[lo:hi]` with run-time-checked bounds: `none` models the
bounds panic raised when `¬ (0 ≤ lo ≤ hi ≤ len b)`. -/
def goSlice (b : Bytes) (lo hi : Int) : Option Bytes :=
  if 0 ≤ lo ∧ lo ≤ hi ∧ hi ≤ (b.length : Int) then
    some ((b.drop lo.toNat).take (hi - lo).toNat)
  else none

/-- Big-endian bytes to an unbounded natural, as `common.BytesToHash(b).Big()`
computes for the exact 32-byte words sliced by the decoder. -/
def beBytesToNat (b : Bytes) : Nat := b.foldl (fun acc x => acc * 256 + x) 0

/-- `big.Int.Int64()` on a non-negative big integer: the low 64 bits,
reinterpreted as a two's-complement signed value. -/
def int64OfBig (v : Nat) : Int :=
  let low := v % U64
  if low < 2 ^ 63 then (low : Int) else (low : Int) - (U64 : Int)

/-- The low-order `AddressLength` bytes of a 32-byte topic word, as in
`copy(a[:], topic[common.HashLength-common.AddressLength:])`. -/
def lowAddress (h : Hash) : Address :=
  (h.drop (HashLength - AddressLength)).take AddressLength

/-- `common.BytesToAddress`: keep the low-order 20 bytes, left-pad with
zeros if shorter. -/
def bytesToAddress (b : Bytes) : Address :=
  if AddressLength ≤ b.length then b.drop (b.length - AddressLength)
  else List.replicate (AddressLength - b.length) 0 ++ b

/-- `params.MakerTopic`: a fixed 32-byte event-signature constant defined in
the `params` package (outside `src/`); modelled as a concrete 32-byte value,
distinct from the other two topic constants as the keccak signatures are. -/
def MakerTopic : Hash := List.replicate 31 0 ++ [1]

/-- `params.TakerTopic` (see `MakerTopic` for the modelling convention). -/
def TakerTopic : Hash := List.replicate 31 0 ++ [2]

/-- `params.MakerFinishTopic` (see `MakerTopic`). -/
def MakerFinishTopic : Hash := List.replicate 31 0 ++ [3]

/-- `types.Log`, restricted to the fields the bridge core reads. -/
structure RawLog where
  address : Address
  topics : List Hash
  data : Bytes
  txHash : Hash
  blockHash : Hash
  blockNumber : Nat
deriving DecidableEq, Repr

/-- Modelled from the spec: `cc.CrossTransaction` (cross/core is not under
`src/`). The spec fixes the field set {ctxId, originChainId,
destinationChainId, value, from, to, txHash, blockHash, payload}; the three
numeric words are stored in the positional order of the
`cc.NewCrossTransaction` call sites. No claim depends on which numeric word
is which, only on `ctxId`, `from`, `to` and `payload`. -/
structure CrossTransaction where
  value : Nat
  destinationChainId : Nat
  originChainId : Nat
  ctxId : Hash
  txHash : Hash
  blockHash : Hash
  fromAddr : Address
  toAddr : Address
  payload : Bytes
deriving DecidableEq, Repr

/-- Modelled from the spec: `cc.ReceptTransaction` (cross/core is not under
`src/`); field set per the spec and the literal in `archive/signTx/main.go`. -/
structure ReceptTransaction where
  ctxId : Hash
  txHash : Hash
  fromAddr : Address
  toAddr : Address
  destinationId : Nat
  chainId : Nat
deriving DecidableEq, Repr

/-- Modelled from the spec: the cross-transaction status enumeration of
cross/core; only `finished` (`cc.CtxStatusFinished`) is used by the code
under `src/`. -/
inductive CtxStatus where
  | pending
  | signed
  | executable
  | taken
  | finished
deriving DecidableEq, Repr

/-- `cc.CrossTransactionModifier` as built at the `MakerFinishTopic` case of
`shift` (fields ID, AtBlockNumber, Status). -/
structure CrossTransactionModifier where
  id : Hash
  atBlockNumber : Nat
  status : CtxStatus
deriving DecidableEq, Repr

/-- `cc.CrossBlockEvent`: one batch of confirmed makers/takers/finishes.
`number` models the `*big.Int` field (compared through `.Uint64()`). -/
structure CrossBlockEvent where
  number : Nat
  confirmedMaker : List CrossTransaction
  confirmedTaker : List ReceptTransaction
  confirmedFinish : List CrossTransactionModifier
deriving DecidableEq, Repr

/-- A canonical chain header as consumed by `shift`: `hash` models
`header.Hash()` and `number` models `header.Number.Uint64()`. -/
structure Header where
  hash : Hash
  number : Nat
deriving DecidableEq, Repr

/-- The `chainRetriever` interface of unconfirmed.go, an external
collaborator. `getTransactionByTxHash` returns the (blockHash, blockNumber)
pair of a found transaction; `none` models `tx == nil`. -/
structure ChainRetriever where
  getHeaderByNumber : Nat → Option Header
  getTransactionByTxHash : Hash → Option (Hash × Nat)
  chainID : Nat

/-- `unconfirmedBlockLog`: one ledger entry. `logs` is `Option` because the
source distinguishes `next.logs != nil`. -/
structure UnconfirmedBlockLog where
  index : Nat
  hash : Hash
  logs : Option (List RawLog)
deriving DecidableEq, Repr

/-- The classification of one raw log by the inline decoder of `shift`. -/
inductive LogEvent where
  | maker : CrossTransaction → LogEvent
  | taker : ReceptTransaction → LogEvent
  | finish : CrossTransactionModifier → LogEvent
  | skip : LogEvent
deriving DecidableEq, Repr

/-- The maker/taker/finish topic switch of the `for _, v := range next.logs`
loop of `shift` (unconfirmed.go lines 103-137). `.error ()` models the
slice-bounds panic that the maker payload slice `v.Data[192 : 192+count]`
can raise when the count word exceeds the remaining data length. -/
def decodeSwitch (retr : ChainRetriever) (depth : Nat) (v : RawLog) :
    Except Unit LogEvent :=
  if v.topics.getD 0 [] = MakerTopic ∧ HashLength * 6 ≤ v.data.length then
    match goSlice v.data (HashLength * 6 : Int) ((HashLength * 6 : Int) +
        int64OfBig (beBytesToNat (sliceN v.data (HashLength * 5) (HashLength * 6)))) with
    | none => .error ()
    | some payload =>
      .ok (.maker
        { value := beBytesToNat (sliceN v.data (HashLength * 2) (HashLength * 3))
          destinationChainId := beBytesToNat (sliceN v.data (HashLength * 3) (HashLength * 4))
          originChainId := beBytesToNat (sliceN v.data HashLength (HashLength * 2))
          ctxId := v.topics.getD 1 []
          txHash := v.txHash
          blockHash := v.blockHash
          fromAddr := lowAddress (v.topics.getD 2 [])
          toAddr := sliceN v.data (HashLength - AddressLength) HashLength
          payload := payload })
  else if v.topics.getD 0 [] = TakerTopic ∧ HashLength * 4 ≤ v.data.length then
    .ok (.taker
      { ctxId := v.topics.getD 1 []
        txHash := v.txHash
        fromAddr := bytesToAddress
          (sliceN v.data (HashLength * 2 - AddressLength) (HashLength * 2))
        toAddr := lowAddress (v.topics.getD 2 [])
        destinationId := beBytesToNat (sliceN v.data 0 HashLength)
        chainId := retr.chainID })
  else if v.topics.getD 0 [] = MakerFinishTopic then
    .ok (.finish
      { id := v.topics.getD 1 []
        atBlockNumber := (v.blockNumber + depth) % U64
        status := .finished })
  else .ok .skip

/-- The full per-log classification: the transaction-consistency and
topic-count guard of line 100-101, then the topic switch. -/
def decodeLog (retr : ChainRetriever) (contract : Address) (depth : Nat)
    (v : RawLog) : Except Unit LogEvent :=
  match retr.getTransactionByTxHash v.txHash with
  | none => .ok .skip
  | some (bh, bn) =>
    if bh = v.blockHash ∧ bn = v.blockNumber ∧ contract = v.address ∧
        3 ≤ v.topics.length then
      decodeSwitch retr depth v
    else .ok .skip

/-- The whole log loop of `shift`: classify each log in order, accumulating
makers, takers and finish modifiers in log order. A bounds panic aborts the
walk (as the Go panic aborts `shift`). -/
def processLogs (retr : ChainRetriever) (contract : Address) (depth : Nat) :
    List RawLog →
    Except Unit (List CrossTransaction × List ReceptTransaction × List CrossTransactionModifier)
  | [] => .ok ([], [], [])
  | v :: rest =>
    match decodeLog retr contract depth v with
    | .error e => .error e
    | .ok ev =>
      match processLogs retr contract depth rest with
      | .error e => .error e
      | .ok (ctxs, rtxs, fins) =>
        match ev with
        | .maker c => .ok (c :: ctxs, rtxs, fins)
        | .taker r => .ok (ctxs, r :: rtxs, fins)
        | .finish f => .ok (ctxs, rtxs, f :: fins)
        | .skip => .ok (ctxs, rtxs, fins)

/-- Lines 141-156 of unconfirmed.go: either merge the extracted results into
the caller-supplied current event (when its `.Number.Uint64()` equals the
confirmation number) or emit a fresh `CrossBlockEvent` — the latter only if
`len(ctxs) | len(rtxs) | len(finishModifiers) > 0` (bitwise or, as in the
source). Returns the updated current event and the list of emitted events. -/
def mergeOrEmit (cur : Option CrossBlockEvent) (confirmNumber : Nat)
    (ctxs : List CrossTransaction) (rtxs : List ReceptTransaction)
    (fins : List CrossTransactionModifier) :
    Option CrossBlockEvent × List CrossBlockEvent :=
  match cur with
  | some ev =>
    if ev.number % U64 = confirmNumber then
      (some { ev with
          confirmedMaker := ev.confirmedMaker ++ ctxs
          confirmedTaker := ev.confirmedTaker ++ rtxs
          confirmedFinish := ev.confirmedFinish ++ fins }, [])
    else
      (cur,
        if 0 < ctxs.length ||| rtxs.length ||| fins.length then
          [{ number := confirmNumber, confirmedMaker := ctxs,
             confirmedTaker := rtxs, confirmedFinish := fins }]
        else [])
  | none =>
    (cur,
      if 0 < ctxs.length ||| rtxs.length ||| fins.length then
        [{ number := confirmNumber, confirmedMaker := ctxs,
           confirmedTaker := rtxs, confirmedFinish := fins }]
      else [])

/-- The outcome of one `shift` call. `blocks` is the remaining ledger
(oldest first, mirroring the ring walked from its front), `emitted` the
events sent through `crossBlockSend`, `current` the final state of the
caller-supplied mutable current event, and `confirmed` a ghost output
recording, in walk order, the entries for which the confirmation branch
(the `default` case of the switch) ran; it affects no other output. -/
structure ShiftResult where
  blocks : List UnconfirmedBlockLog
  emitted : List CrossBlockEvent
  current : Option CrossBlockEvent
  confirmed : List UnconfirmedBlockLog
deriving DecidableEq, Repr

/-- The `loop` of `shift` (unconfirmed.go lines 74-167). For the front
entry: a failed header lookup logs a warning and falls through to the drop;
a hash mismatch (side fork) likewise drops without touching the logs; a
too-fresh entry (`next.index + depth > height` in `uint64` arithmetic)
breaks the loop; otherwise the entry is confirmed — its logs (when not nil)
are decoded and merged or emitted — and then dropped. The `shiftLogHook`
test hook (nil outside tests) is omitted. -/
def shiftGo (retr : ChainRetriever) (depth : Nat) (contract : Address)
    (height : Nat) :
    List UnconfirmedBlockLog → Option CrossBlockEvent → Except Unit ShiftResult
  | [], cur => .ok { blocks := [], emitted := [], current := cur, confirmed := [] }
  | next :: rest, cur =>
    match retr.getHeaderByNumber next.index with
    | none => shiftGo retr depth contract height rest cur
    | some header =>
      if header.hash ≠ next.hash then
        shiftGo retr depth contract height rest cur
      else if height < (next.index + depth) % U64 then
        .ok { blocks := next :: rest, emitted := [], current := cur, confirmed := [] }
      else
        match next.logs with
        | none =>
          match shiftGo retr depth contract height rest cur with
          | .error e => .error e
          | .ok r => .ok { r with confirmed := next :: r.confirmed }
        | some logs =>
          match processLogs retr contract depth logs with
          | .error e => .error e
          | .ok (ctxs, rtxs, fins) =>
            let confirmNumber := (header.number + depth) % U64
            let me := mergeOrEmit cur confirmNumber ctxs rtxs fins
            match shiftGo retr depth contract height rest me.1 with
            | .error e => .error e
            | .ok r =>
              .ok { r with emitted := me.2 ++ r.emitted, confirmed := next :: r.confirmed }

/-- `shift(height, currentEvent)` on a ledger held as a list. -/
def shift (retr : ChainRetriever) (depth : Nat) (contract : Address)
    (height : Nat) (blocks : List UnconfirmedBlockLog)
    (cur : Option CrossBlockEvent) : Except Unit ShiftResult :=
  shiftGo retr depth contract height blocks cur

/-- `insert(index, hash, blockLogs, currentEvent)`: shift out old entries,
then append the new entry at the back of the ring. -/
def insert (retr : ChainRetriever) (depth : Nat) (contract : Address)
    (index : Nat) (hash : Hash) (blockLogs : Option (List RawLog))
    (blocks : List UnconfirmedBlockLog) (cur : Option CrossBlockEvent) :
    Except Unit ShiftResult :=
  match shiftGo retr depth contract index blocks cur with
  | .error e => .error e
  | .ok r => .ok { r with blocks := r.blocks ++ [{ index := index, hash := hash, logs := blockLogs }] }

/-! ### archive/signTx/main.go -/

/-- `TranParam` of archive/signTx/main.go. -/
structure TranParam where
  gasLimit : Nat
  gasPrice : Nat
  data : Bytes
deriving DecidableEq, Repr

/-- The settlement transaction built by `types.NewTransaction(nonce, to,
big.NewInt(0), gasLimit, gasPrice, data)`. -/
structure EthTx where
  nonce : Nat
  toAddr : Address
  value : Nat
  gasLimit : Nat
  gasPrice : Nat
  data : Bytes
deriving DecidableEq, Repr

/-- The result of `types.SignTx` with an EIP155 signer: the transaction plus
the chain id its replay-protected signature is bound to
(`types.NewEIP155Signer(big.NewInt(int64(networkId)))`). -/
structure SignedEthTx where
  tx : EthTx
  signerChainId : Int
deriving DecidableEq, Repr

/-- External collaborators of the archive tool (chain clients, anchor key,
rlp, cross/core), bundled as oracles. A `none`/`false` answer models the
corresponding Go error. -/
structure ArchiveEnv where
  nonceAt : Option Nat
  suggestGasPrice : Option Nat
  constructData : ReceptTransaction → Option Bytes
  signEthOk : Bool
  sendTxOk : Bool
  signCtx : CrossTransaction → Option CrossTransaction
  rlpDecodeCtx : Bytes → Option CrossTransaction
  addSignature : CrossTransaction → CrossTransaction → Option Unit
  sendCrossOk : Bool

/-- What `TakerEvent` did: skipped (destination mismatch), submitted the
settlement transaction, or had the submission fail (logged and abandoned). -/
inductive TakerOutcome where
  | skipped
  | submitted (stx : SignedEthTx)
  | sendFailed (stx : SignedEthTx)
deriving DecidableEq, Repr

/-- The receipt decoded by `TakerEvent` (main.go lines 206-216): `to` from
`topics[2]`, `from` from `data[44:64]`, destination id from `data[0:32]`;
the TxHash field is left at its zero value as in the source literal.
`none` models an out-of-range access (normally prevented by `handleTx`). -/
def takerDecode (chainId : Nat) (v : RawLog) : Option ReceptTransaction :=
  match v.topics.get? 2, v.topics.get? 1 with
  | some t2, some t1 =>
    match goSlice v.data (HashLength * 2 - AddressLength) (HashLength * 2),
        goSlice v.data 0 HashLength with
    | some fromBytes, some destWord =>
      some { ctxId := t1, txHash := zeroHash,
             fromAddr := bytesToAddress fromBytes, toAddr := lowAddress t2,
             destinationId := beBytesToNat destWord, chainId := chainId }
    | _, _ => none
  | _, _ => none

/-- `TakerEvent` (main.go lines 191-235): fetch the anchor nonce on the
counterpart chain (panic on error), decode the receipt, and — only when the
receipt's destination id equals the counterpart chain id (both through
`.Uint64()`) — build the settlement transaction from the suggested gas
price and the contract call-encoding, sign it bound to the counterpart
chain id, and submit it; a failed submission is logged and abandoned.
A `createTransaction` error is logged and then the nil `param` is
dereferenced, and a signing error is panicked on: both are `.error ()`. -/
def takerEvent (env : ArchiveEnv) (chainId otherChainId : Nat)
    (otherContract : Address) (v : RawLog) : Except Unit TakerOutcome :=
  match env.nonceAt with
  | none => .error ()
  | some nonce =>
    match takerDecode chainId v with
    | none => .error ()
    | some rtx =>
      if rtx.destinationId % U64 = otherChainId % U64 then
        match env.suggestGasPrice, env.constructData rtx with
        | some gp, some cd =>
          let tx : EthTx := { nonce := nonce, toAddr := otherContract,
                              value := 0, gasLimit := 250000, gasPrice := gp,
                              data := cd }
          if env.signEthOk then
            let stx : SignedEthTx := { tx := tx, signerChainId := int64OfBig (otherChainId % U64) }
            if env.sendTxOk then .ok (.submitted stx) else .ok (.sendFailed stx)
          else .error ()
        | _, _ => .error ()
      else .ok .skipped

/-- What `MakeEvent` did: printed the rlp of the (possibly nil) signed
cross-transaction for out-of-band exchange, or merged the second anchor's
record and sent the multi-signed transaction. -/
inductive MakeOutcome where
  | printedRecord (signedTx : Option CrossTransaction)
  | sentCross (signed : CrossTransaction) (added : CrossTransaction)
deriving DecidableEq, Repr

/-- `MakeEvent` (main.go lines 238-300). The log is decoded with no length
or topic-count guard (`topics[2]`, `topics[1]`, the count word
`data[128:160]`, three numeric words and the payload
`data[160:160+count]` are read unconditionally, so a short log is a bounds
panic). A `SignCtx` failure is only logged: execution continues with a nil
signed transaction, which is rlp-encoded (geth's rlp encodes a nil struct
pointer without error) and, with no `--data` bytes, printed as the record;
on the `--data` path the nil transaction is dereferenced by the
cross/core constructor (`.error ()`). -/
def makeEvent (env : ArchiveEnv) (chainId : Nat) (crossTxBytes : Bytes)
    (v : RawLog) : Except Unit MakeOutcome :=
  match v.topics.get? 2, v.topics.get? 1 with
  | some t2, some t1 =>
    match goSlice v.data (HashLength * 4) (HashLength * 5) with
    | none => .error ()
    | some countWord =>
      let count := int64OfBig (beBytesToNat countWord)
      match goSlice v.data HashLength (HashLength * 2),
          goSlice v.data (HashLength * 2) (HashLength * 3),
          goSlice v.data 0 HashLength,
          goSlice v.data (HashLength * 5) ((HashLength * 5 : Int) + count) with
      | some w1, some w2, some w0, some payload =>
        let crossTx : CrossTransaction :=
          { value := beBytesToNat w1, destinationChainId := beBytesToNat w2,
            originChainId := beBytesToNat w0, ctxId := t1,
            txHash := v.txHash, blockHash := v.blockHash,
            fromAddr := lowAddress t2, toAddr := zeroAddress,
            payload := payload }
        let signedTx := env.signCtx crossTx
        if 0 < crossTxBytes.length then
          match env.rlpDecodeCtx crossTxBytes with
          | none => .error ()
          | some addTx =>
            match signedTx with
            | none => .error ()
            | some stx =>
              match env.addSignature stx addTx with
              | none => .error ()
              | some _ =>
                if env.sendCrossOk then .ok (.sentCross stx addTx) else .error ()
        else
          .ok (.printedRecord signedTx)
      | _, _, _, _ => .error ()
  | _, _ => .error ()

/-- One action taken by `handleTx` for one log. -/
inductive ArchiveAction where
  | made (o : MakeOutcome)
  | took (o : TakerOutcome)
deriving DecidableEq, Repr

/-- The per-log body of `handleTx` (main.go lines 175-189): under
`len(v.Topics) > 0`, a `MakerTopic` first topic goes to `MakeEvent` with no
further precondition — the `log.Info` call itself reads `Topics[1]`, so a
one-topic maker log already aborts — and, independently, a taker log
guarded by `len(topics) >= 3` and `len(data) >= 4*hashWidth` goes to
`TakerEvent`. -/
def handleLog (env : ArchiveEnv) (chainId otherChainId : Nat)
    (otherContract : Address) (crossTxBytes : Bytes) (v : RawLog) :
    Except Unit (List ArchiveAction) :=
  if 0 < v.topics.length then
    match (if v.topics.getD 0 [] = MakerTopic then
            match v.topics.get? 1 with
            | none => .error ()
            | some _ =>
              match makeEvent env chainId crossTxBytes v with
              | .error e => .error e
              | .ok o => .ok [ArchiveAction.made o]
          else (.ok [] : Except Unit (List ArchiveAction))) with
    | .error e => .error e
    | .ok a1 =>
      if 3 ≤ v.topics.length ∧ v.topics.getD 0 [] = TakerTopic ∧
          HashLength * 4 ≤ v.data.length then
        match takerEvent env chainId otherChainId otherContract v with
        | .error e => .error e
        | .ok o => .ok (a1 ++ [ArchiveAction.took o])
      else .ok a1
  else .ok []

/-- The `for _, v := range receipt.Logs` loop of `handleTx`. -/
def handleTxLogs (env : ArchiveEnv) (chainId otherChainId : Nat)
    (otherContract : Address) (crossTxBytes : Bytes) :
    List RawLog → Except Unit (List ArchiveAction)
  | [] => .ok []
  | v :: rest =>
    match handleLog env chainId otherChainId otherContract crossTxBytes v with
    | .error e => .error e
    | .ok a =>
      match handleTxLogs env chainId otherChainId otherContract crossTxBytes rest with
      | .error e => .error e
      | .ok b => .ok (a ++ b)

/-! ### parseContractLogs / parseCrossChainEvents (main.go lines 344-427) -/

/-- The per-chain pending-event maps (`MakerEvents`, `TakerEvents`), modelled
as association lists with at most one entry per key, like Go maps. -/
abbrev EventMap := List (Hash × RawLog)

/-- Go `delete(m, k)`. -/
def mapDelete (m : EventMap) (k : Hash) : EventMap :=
  m.filter (fun p => decide (p.1 ≠ k))

/-- Go `m[k] = v` (overwrite). -/
def mapInsert (m : EventMap) (k : Hash) (v : RawLog) : EventMap :=
  (k, v) :: mapDelete m k

/-- Key membership in an `EventMap`. -/
def mapMem (m : EventMap) (k : Hash) : Bool :=
  m.any (fun p => decide (p.1 = k))

/-- A transaction as seen by the scan: its `To` address and the logs of its
receipt (the receipt fetch, with its one retry then panic, is an external
chain-client call and is modelled as already-resolved data). -/
structure ScanTx where
  toAddr : Option Address
  logs : List RawLog
deriving DecidableEq, Repr

/-- The mutable state of `parseContractLogs`: the chain's two pending maps
and the accumulated `finishes` return value. -/
structure ScanState where
  makerEvents : EventMap
  takerEvents : EventMap
  finishes : List Hash
deriving DecidableEq, Repr

/-- The per-log body of the receipt loop of `parseContractLogs` (main.go
lines 398-415): the three `continue`-separated classifications. Note the
maker variant here requires only `5*hashWidth` data bytes. -/
def scanLogStep (st : ScanState) (v : RawLog) : ScanState :=
  if 0 < v.topics.length then
    if v.topics.getD 0 [] = MakerTopic ∧ 3 ≤ v.topics.length ∧
        HashLength * 5 ≤ v.data.length then
      { st with makerEvents := mapInsert st.makerEvents (v.topics.getD 1 []) v }
    else if 3 ≤ v.topics.length ∧ v.topics.getD 0 [] = TakerTopic ∧
        HashLength * 4 ≤ v.data.length then
      { st with takerEvents := mapInsert st.takerEvents (v.topics.getD 1 []) v }
    else if 3 ≤ v.topics.length ∧ v.topics.getD 0 [] = MakerFinishTopic then
      { st with finishes := st.finishes ++ [v.topics.getD 1 []] }
    else st
  else st

/-- The per-transaction body of `parseContractLogs`: only transactions sent
to the cross-chain contract are scanned, and after each such transaction
every finish id collected so far is deleted from the chain's maker map
(main.go lines 416-418). -/
def scanTxStep (contract : Address) (st : ScanState) (tx : ScanTx) : ScanState :=
  match tx.toAddr with
  | some a =>
    if a = contract then
      let st2 := tx.logs.foldl scanLogStep st
      { st2 with makerEvents := st2.finishes.foldl mapDelete st2.makerEvents }
    else st
  | none => st

/-- `parseContractLogs` over a prefetched block range. -/
def parseContractLogs (contract : Address) (blocks : List (List ScanTx))
    (st : ScanState) : ScanState :=
  blocks.foldl (fun s blk => blk.foldl (scanTxStep contract) s) st

/-- The final pending maps of the two chains after `parseCrossChainEvents`. -/
structure BridgeState where
  mainMakers : EventMap
  mainTakers : EventMap
  subMakers : EventMap
  subTakers : EventMap
deriving DecidableEq, Repr

/-- `parseCrossChainEvents` (main.go lines 344-356): scan both chains from
the fresh handler's empty maps, then delete each chain's finish ids from
the counterpart chain's taker map. -/
def parseCrossChainEvents (mainContract subContract : Address)
    (mainBlocks subBlocks : List (List ScanTx)) : BridgeState :=
  let m := parseContractLogs mainContract mainBlocks ⟨[], [], []⟩
  let s := parseContractLogs subContract subBlocks ⟨[], [], []⟩
  { mainMakers := m.makerEvents
    mainTakers := s.finishes.foldl mapDelete m.takerEvents
    subMakers := s.makerEvents
    subTakers := m.finishes.foldl mapDelete s.takerEvents }

/-- The ctxId contribution of one log to the maker map of the scan
(the branch structure mirrors `scanLogStep`). -/
def makerContrib (v : RawLog) : List Hash :=
  if 0 < v.topics.length then
    if v.topics.getD 0 [] = MakerTopic ∧ 3 ≤ v.topics.length ∧
        HashLength * 5 ≤ v.data.length then
      [v.topics.getD 1 []]
    else if 3 ≤ v.topics.length ∧ v.topics.getD 0 [] = TakerTopic ∧
        HashLength * 4 ≤ v.data.length then []
    else if 3 ≤ v.topics.length ∧ v.topics.getD 0 [] = MakerFinishTopic then []
    else []
  else []

/-- The ctxId contribution of one log to the taker map of the scan. -/
def takerContrib (v : RawLog) : List Hash :=
  if 0 < v.topics.length then
    if v.topics.getD 0 [] = MakerTopic ∧ 3 ≤ v.topics.length ∧
        HashLength * 5 ≤ v.data.length then []
    else if 3 ≤ v.topics.length ∧ v.topics.getD 0 [] = TakerTopic ∧
        HashLength * 4 ≤ v.data.length then
      [v.topics.getD 1 []]
    else if 3 ≤ v.topics.length ∧ v.topics.getD 0 [] = MakerFinishTopic then []
    else []
  else []

/-- The ctxId contribution of one log to the finish list of the scan. -/
def finContrib (v : RawLog) : List Hash :=
  if 0 < v.topics.length then
    if v.topics.getD 0 [] = MakerTopic ∧ 3 ≤ v.topics.length ∧
        HashLength * 5 ≤ v.data.length then []
    else if 3 ≤ v.topics.length ∧ v.topics.getD 0 [] = TakerTopic ∧
        HashLength * 4 ≤ v.data.length then []
    else if 3 ≤ v.topics.length ∧ v.topics.getD 0 [] = MakerFinishTopic then
      [v.topics.getD 1 []]
    else []
  else []

/-- Concatenated per-log contributions over a log list. -/
def logsCollect (f : RawLog → List Hash) : List RawLog → List Hash
  | [] => []
  | v :: rest => f v ++ logsCollect f rest

/-- Per-transaction contributions (only transactions to the contract). -/
def txCollect (contract : Address) (f : RawLog → List Hash) (tx : ScanTx) : List Hash :=
  match tx.toAddr with
  | some a => if a = contract then logsCollect f tx.logs else []
  | none => []

/-- Per-block contributions. -/
def blockCollect (contract : Address) (f : RawLog → List Hash) :
    List ScanTx → List Hash
  | [] => []
  | tx :: txs => txCollect contract f tx ++ blockCollect contract f txs

/-- Contributions over a block list. -/
def blocksCollect (contract : Address) (f : RawLog → List Hash) :
    List (List ScanTx) → List Hash
  | [] => []
  | blk :: rest => blockCollect contract f blk ++ blocksCollect contract f rest

/-! ### Concrete fixtures for witnesses and counterexamples -/

/-- A retriever whose canonical header at height 5 has a hash different from
the tracked entry (a side fork) and which finds no transactions. -/
def retrC1 : ChainRetriever :=
  { getHeaderByNumber := fun n => if n = 5 then some { hash := [9], number := 5 } else none
    getTransactionByTxHash := fun _ => none
    chainID := 1 }

/-- A ledger entry at height 5 whose hash disagrees with `retrC1`. -/
def entC1 : UnconfirmedBlockLog := { index := 5, hash := [7], logs := some [] }

/-- A retriever whose canonical header at height 5 matches `entC1w`. -/
def retrC1w : ChainRetriever :=
  { getHeaderByNumber := fun n => if n = 5 then some { hash := [7], number := 5 } else none
    getTransactionByTxHash := fun _ => none
    chainID := 1 }

/-- A ledger entry at height 5 agreeing with the canonical chain of `retrC1w`. -/
def entC1w : UnconfirmedBlockLog := { index := 5, hash := [7], logs := some [] }

/-- A retriever on which every header lookup fails. -/
def retrC2 : ChainRetriever :=
  { getHeaderByNumber := fun _ => none
    getTransactionByTxHash := fun _ => none
    chainID := 1 }

/-- A ledger entry used against `retrC2`. -/
def entC2 : UnconfirmedBlockLog := { index := 1, hash := [1], logs := some [] }

/-- A maker log at the minimum data length (6 words) with a zero count word. -/
def logC3 : RawLog :=
  { address := [3]
    topics := [MakerTopic, List.replicate 31 0 ++ [9], List.replicate 31 0 ++ [8]]
    data := List.replicate 192 0
    txHash := [2], blockHash := [5], blockNumber := 7 }

/-- `logC3` with its data one byte shorter than the minimum. -/
def logC3short : RawLog := { logC3 with data := List.replicate 191 0 }

/-- A retriever that confirms the transaction/block consistency of `logC3`. -/
def retrC3 : ChainRetriever :=
  { getHeaderByNumber := fun _ => none
    getTransactionByTxHash := fun _ => some ([5], 7)
    chainID := 1 }

/-- A maker log meeting every precondition of the maker case (topic, three
topics, 6 data words) whose count word is 1 while no payload bytes follow:
the payload slice `data[192:193]` is out of range. -/
def logC4 : RawLog :=
  { address := [3]
    topics := [MakerTopic, List.replicate 31 0 ++ [9], List.replicate 31 0 ++ [8]]
    data := List.replicate 191 0 ++ [1]
    txHash := [2], blockHash := [5], blockNumber := 7 }

/-- A retriever that confirms the transaction/block consistency of `logC4`. -/
def retrC4 : ChainRetriever :=
  { getHeaderByNumber := fun _ => none
    getTransactionByTxHash := fun _ => some ([5], 7)
    chainID := 1 }

/-- A finish log with three topics. -/
def logC7 : RawLog :=
  { address := [3]
    topics := [MakerFinishTopic, List.replicate 31 0 ++ [4], List.replicate 31 0 ++ [6]]
    data := []
    txHash := [2], blockHash := [5], blockNumber := 11 }

/-- A retriever that confirms the transaction/block consistency of `logC7`. -/
def retrC7 : ChainRetriever :=
  { getHeaderByNumber := fun _ => none
    getTransactionByTxHash := fun _ => some ([5], 11)
    chainID := 1 }


/-- A retriever whose canonical header at height 5 matches `entC6`. -/
def retrC6 : ChainRetriever :=
  { getHeaderByNumber := fun n => if n = 5 then some { hash := [7], number := 5 } else none
    getTransactionByTxHash := fun _ => none
    chainID := 1 }

/-- A confirmable entry (matching hash, empty log list). -/
def entC6 : UnconfirmedBlockLog := { index := 5, hash := [7], logs := some [] }

/-- A maker-topic log with a single topic: `handleTx` reads `Topics[1]`
for it with no topic-count check. -/
def logC5 : RawLog :=
  { address := [3], topics := [MakerTopic], data := [],
    txHash := [2], blockHash := [5], blockNumber := 0 }

/-- A two-topic taker log with empty data: fails the taker precondition. -/
def logC5t : RawLog :=
  { address := [3], topics := [TakerTopic, List.replicate 31 0 ++ [9]], data := [],
    txHash := [2], blockHash := [5], blockNumber := 0 }

/-- A one-topic taker log with full-length data: fails the topic count. -/
def logC5few : RawLog :=
  { address := [3], topics := [TakerTopic], data := List.replicate 128 0,
    txHash := [2], blockHash := [5], blockNumber := 0 }

/-- A retriever that confirms transaction consistency for the C5 logs. -/
def retrC5 : ChainRetriever :=
  { getHeaderByNumber := fun _ => none
    getTransactionByTxHash := fun _ => some ([5], 0)
    chainID := 1 }

/-- An archive environment whose oracles all succeed. -/
def envC5 : ArchiveEnv :=
  { nonceAt := some 0, suggestGasPrice := some 1,
    constructData := fun _ => some [], signEthOk := true, sendTxOk := true,
    signCtx := fun c => some c, rlpDecodeCtx := fun _ => none,
    addSignature := fun _ _ => some (), sendCrossOk := true }

/-- A taker log whose destination-id word is 2. -/
def logC9 : RawLog :=
  { address := [3]
    topics := [TakerTopic, List.replicate 31 0 ++ [9], List.replicate 31 0 ++ [8]]
    data := (List.replicate 31 0 ++ [2]) ++ List.replicate 96 0
    txHash := [2], blockHash := [5], blockNumber := 7 }

/-- An archive environment with nonce 5, gas price 3 and call data [1, 2]. -/
def envC9 : ArchiveEnv :=
  { nonceAt := some 5, suggestGasPrice := some 3,
    constructData := fun _ => some [1, 2], signEthOk := true, sendTxOk := true,
    signCtx := fun c => some c, rlpDecodeCtx := fun _ => none,
    addSignature := fun _ _ => some (), sendCrossOk := true }

/-- A well-formed maker log (three topics, five data words, empty payload). -/
def logC10 : RawLog :=
  { address := [3]
    topics := [MakerTopic, List.replicate 31 0 ++ [9], List.replicate 31 0 ++ [8]]
    data := List.replicate 160 0
    txHash := [2], blockHash := [5], blockNumber := 7 }

/-- An archive environment whose `SignCtx` always fails (missing key). -/
def envC10 : ArchiveEnv :=
  { nonceAt := some 0, suggestGasPrice := some 1,
    constructData := fun _ => some [], signEthOk := true, sendTxOk := true,
    signCtx := fun _ => none, rlpDecodeCtx := fun _ => none,
    addSignature := fun _ _ => some (), sendCrossOk := true }

/-! ### Helper lemmas -/

theorem makerTopic_ne_takerTopic : MakerTopic ≠ TakerTopic := by decide

theorem makerTopic_ne_finishTopic : MakerTopic ≠ MakerFinishTopic := by decide

theorem takerTopic_ne_finishTopic : TakerTopic ≠ MakerFinishTopic := by decide

/-- When the transaction lookup confirms the log and the contract and
topic-count guard holds, `decodeLog` is the topic switch. -/
theorem decodeLog_guard_pass (retr : ChainRetriever) (contract : Address) (depth : Nat)
    (v : RawLog)
    (hg : retr.getTransactionByTxHash v.txHash = some (v.blockHash, v.blockNumber))
    (hc : contract = v.address) (ht : 3 ≤ v.topics.length) :
    decodeLog retr contract depth v = decodeSwitch retr depth v := by
  unfold decodeLog
  rw [hg]
  exact if_pos ⟨rfl, rfl, hc, ht⟩

/-- If the topic switch skips a log, the guarded classification also skips
it, whatever the transaction lookup answers. -/
theorem decodeLog_skip_of_switch_skip (retr : ChainRetriever) (contract : Address)
    (depth : Nat) (v : RawLog) (h : decodeSwitch retr depth v = .ok .skip) :
    decodeLog retr contract depth v = .ok .skip := by
  unfold decodeLog
  match hq : retr.getTransactionByTxHash v.txHash with
  | none => rfl
  | some (bh, bn) =>
    show (if bh = v.blockHash ∧ bn = v.blockNumber ∧ contract = v.address ∧
        3 ≤ v.topics.length then decodeSwitch retr depth v else .ok .skip) = .ok .skip
    by_cases hcond : bh = v.blockHash ∧ bn = v.blockNumber ∧ contract = v.address ∧ 3 ≤ v.topics.length
    · rw [if_pos hcond]; exact h
    · rw [if_neg hcond]

/-- A maker log at the exact minimum data length whose count word is zero
decodes to a maker transaction with an empty payload. -/
theorem decodeSwitch_maker_boundary (retr : ChainRetriever) (depth : Nat) (v : RawLog)
    (h0 : v.topics.getD 0 [] = MakerTopic)
    (hlen : v.data.length = HashLength * 6)
    (hcount : beBytesToNat (sliceN v.data (HashLength * 5) (HashLength * 6)) = 0) :
    decodeSwitch retr depth v = .ok (.maker
      { value := beBytesToNat (sliceN v.data (HashLength * 2) (HashLength * 3))
        destinationChainId := beBytesToNat (sliceN v.data (HashLength * 3) (HashLength * 4))
        originChainId := beBytesToNat (sliceN v.data HashLength (HashLength * 2))
        ctxId := v.topics.getD 1 []
        txHash := v.txHash
        blockHash := v.blockHash
        fromAddr := lowAddress (v.topics.getD 2 [])
        toAddr := sliceN v.data (HashLength - AddressLength) HashLength
        payload := [] }) := by
  have hslice : goSlice v.data (HashLength * 6 : Int) ((HashLength * 6 : Int) +
      int64OfBig (beBytesToNat (sliceN v.data (HashLength * 5) (HashLength * 6)))) = some [] := by
    rw [hcount]
    simp [goSlice, int64OfBig, U64, HashLength, hlen]
  unfold decodeSwitch
  rw [if_pos ⟨h0, le_of_eq hlen.symm⟩, hslice]

/-- A maker-topic log one byte short of the minimum data length matches no
case of the topic switch. -/
theorem decodeSwitch_maker_short (retr : ChainRetriever) (depth : Nat) (v : RawLog)
    (h0 : v.topics.getD 0 [] = MakerTopic)
    (hlen : v.data.length = HashLength * 6 - 1) :
    decodeSwitch retr depth v = .ok .skip := by
  unfold decodeSwitch
  rw [if_neg, if_neg, if_neg]
  · rw [h0]; exact makerTopic_ne_finishTopic
  · rintro ⟨hbad, -⟩
    rw [h0] at hbad
    exact makerTopic_ne_takerTopic hbad
  · rintro ⟨-, hbad⟩
    rw [hlen] at hbad
    simp [HashLength] at hbad

/-- A failed header lookup: the warning falls through to the drop, so the
walk continues on the tail with the entry removed and its logs untouched. -/
theorem shiftGo_head_noHeader (retr : ChainRetriever) (depth : Nat) (contract : Address)
    (height : Nat) (e : UnconfirmedBlockLog) (rest : List UnconfirmedBlockLog)
    (cur : Option CrossBlockEvent)
    (h : retr.getHeaderByNumber e.index = none) :
    shiftGo retr depth contract height (e :: rest) cur =
      shiftGo retr depth contract height rest cur := by
  simp only [shiftGo, h]

/-- A side-fork entry (canonical hash differs) is dropped and the walk
continues, independently of the entry's logs and of its depth. -/
theorem shiftGo_head_mismatch (retr : ChainRetriever) (depth : Nat) (contract : Address)
    (height : Nat) (e : UnconfirmedBlockLog) (rest : List UnconfirmedBlockLog)
    (cur : Option CrossBlockEvent) (hd : Header)
    (hh : retr.getHeaderByNumber e.index = some hd) (hne : hd.hash ≠ e.hash) :
    shiftGo retr depth contract height (e :: rest) cur =
      shiftGo retr depth contract height rest cur := by
  simp only [shiftGo, hh]
  rw [if_pos hne]

/-- A canonical, matching entry that is still too fresh stops the walk,
leaving the whole remaining ledger untouched. -/
theorem shiftGo_head_fresh (retr : ChainRetriever) (depth : Nat) (contract : Address)
    (height : Nat) (e : UnconfirmedBlockLog) (rest : List UnconfirmedBlockLog)
    (cur : Option CrossBlockEvent) (hd : Header)
    (hh : retr.getHeaderByNumber e.index = some hd) (heq : hd.hash = e.hash)
    (hfresh : height < (e.index + depth) % U64) :
    shiftGo retr depth contract height (e :: rest) cur =
      .ok { blocks := e :: rest, emitted := [], current := cur, confirmed := [] } := by
  simp only [shiftGo, hh]
  rw [if_neg (not_not_intro heq), if_pos hfresh]

/-- The confirmation step for an entry with non-nil logs whose decoding
succeeds. -/
theorem shiftGo_head_confirm (retr : ChainRetriever) (depth : Nat) (contract : Address)
    (height : Nat) (e : UnconfirmedBlockLog) (rest : List UnconfirmedBlockLog)
    (cur : Option CrossBlockEvent) (hd : Header) (logs : List RawLog)
    (ctxs : List CrossTransaction) (rtxs : List ReceptTransaction)
    (fins : List CrossTransactionModifier)
    (hh : retr.getHeaderByNumber e.index = some hd) (heq : hd.hash = e.hash)
    (hold : ¬ height < (e.index + depth) % U64)
    (hlogs : e.logs = some logs)
    (hpl : processLogs retr contract depth logs = .ok (ctxs, rtxs, fins)) :
    shiftGo retr depth contract height (e :: rest) cur =
      match shiftGo retr depth contract height rest
          (mergeOrEmit cur ((hd.number + depth) % U64) ctxs rtxs fins).1 with
      | .error er => .error er
      | .ok r =>
        .ok { r with
          emitted := (mergeOrEmit cur ((hd.number + depth) % U64) ctxs rtxs fins).2 ++ r.emitted
          confirmed := e :: r.confirmed } := by
  simp only [shiftGo, hh, hlogs, hpl]
  rw [if_neg (not_not_intro heq), if_neg hold]

/-- The confirmation step for an entry with nil logs: the entry is dropped
with no extraction, no merge and no emission. -/
theorem shiftGo_head_confirm_nilLogs (retr : ChainRetriever) (depth : Nat) (contract : Address)
    (height : Nat) (e : UnconfirmedBlockLog) (rest : List UnconfirmedBlockLog)
    (cur : Option CrossBlockEvent) (hd : Header)
    (hh : retr.getHeaderByNumber e.index = some hd) (heq : hd.hash = e.hash)
    (hold : ¬ height < (e.index + depth) % U64)
    (hlogs : e.logs = none) :
    shiftGo retr depth contract height (e :: rest) cur =
      match shiftGo retr depth contract height rest cur with
      | .error er => .error er
      | .ok r => .ok { r with confirmed := e :: r.confirmed } := by
  simp only [shiftGo, hh, hlogs]
  rw [if_neg (not_not_intro heq), if_neg hold]

/-- A bounds panic while decoding a confirmed entry's logs aborts `shift`. -/
theorem shiftGo_head_logsError (retr : ChainRetriever) (depth : Nat) (contract : Address)
    (height : Nat) (e : UnconfirmedBlockLog) (rest : List UnconfirmedBlockLog)
    (cur : Option CrossBlockEvent) (hd : Header) (logs : List RawLog) (er : Unit)
    (hh : retr.getHeaderByNumber e.index = some hd) (heq : hd.hash = e.hash)
    (hold : ¬ height < (e.index + depth) % U64)
    (hlogs : e.logs = some logs)
    (hpl : processLogs retr contract depth logs = .error er) :
    shiftGo retr depth contract height (e :: rest) cur = .error er := by
  simp only [shiftGo, hh, hlogs, hpl]
  rw [if_neg (not_not_intro heq), if_neg hold]

/-- Soundness of confirmation: every entry the walk confirms was in the
ledger, had a retrievable canonical header with matching hash, and was old
enough in the code's `uint64` arithmetic. -/
theorem shiftGo_confirmed_sound (retr : ChainRetriever) (depth : Nat) (contract : Address)
    (height : Nat) :
    ∀ (es : List UnconfirmedBlockLog) (cur : Option CrossBlockEvent) (res : ShiftResult),
      shiftGo retr depth contract height es cur = .ok res →
      ∀ e ∈ res.confirmed, e ∈ es ∧ ∃ hd, retr.getHeaderByNumber e.index = some hd ∧
        hd.hash = e.hash ∧ (e.index + depth) % U64 ≤ height := by
  intro es
  induction es with
  | nil =>
    intro cur res hres e he
    simp only [shiftGo] at hres
    cases hres
    simp at he
  | cons next rest ih =>
    intro cur res hres e he
    cases hh : retr.getHeaderByNumber next.index with
    | none =>
      rw [shiftGo_head_noHeader retr depth contract height next rest cur hh] at hres
      obtain ⟨hmem, hrest⟩ := ih cur res hres e he
      exact ⟨List.mem_cons_of_mem _ hmem, hrest⟩
    | some hd =>
      by_cases hne : hd.hash = next.hash
      · by_cases hfresh : height < (next.index + depth) % U64
        · rw [shiftGo_head_fresh retr depth contract height next rest cur hd hh hne hfresh] at hres
          cases hres
          simp at he
        · cases hlogs : next.logs with
          | none =>
            rw [shiftGo_head_confirm_nilLogs retr depth contract height next rest cur hd hh hne hfresh hlogs] at hres
            cases hrec : shiftGo retr depth contract height rest cur with
            | error er => rw [hrec] at hres; exact Except.noConfusion hres
            | ok r =>
              rw [hrec] at hres
              cases hres
              rcases List.mem_cons.mp he with rfl | hmem
              · exact ⟨List.mem_cons_self _ _, hd, hh, hne, Nat.le_of_not_lt hfresh⟩
              · obtain ⟨hm, hrest⟩ := ih cur r hrec e hmem
                exact ⟨List.mem_cons_of_mem _ hm, hrest⟩
          | some logs =>
            cases hpl : processLogs retr contract depth logs with
            | error er =>
              rw [shiftGo_head_logsError retr depth contract height next rest cur hd logs er hh hne hfresh hlogs hpl] at hres
              exact Except.noConfusion hres
            | ok triple =>
              obtain ⟨ctxs, rtxs, fins⟩ := triple
              rw [shiftGo_head_confirm retr depth contract height next rest cur hd logs ctxs rtxs fins hh hne hfresh hlogs hpl] at hres
              cases hrec : shiftGo retr depth contract height rest
                  (mergeOrEmit cur ((hd.number + depth) % U64) ctxs rtxs fins).1 with
              | error er => rw [hrec] at hres; exact Except.noConfusion hres
              | ok r =>
                rw [hrec] at hres
                cases hres
                rcases List.mem_cons.mp he with rfl | hmem
                · exact ⟨List.mem_cons_self _ _, hd, hh, hne, Nat.le_of_not_lt hfresh⟩
                · obtain ⟨hm, hrest⟩ := ih _ r hrec e hmem
                  exact ⟨List.mem_cons_of_mem _ hm, hrest⟩
      · rw [shiftGo_head_mismatch retr depth contract height next rest cur hd hh hne] at hres
        obtain ⟨hmem, hrest⟩ := ih cur res hres e he
        exact ⟨List.mem_cons_of_mem _ hmem, hrest⟩

/-- Completeness of confirmation on an index-sorted ledger (the insertion
order of the chain-watch path): every entry with a retrievable, matching
canonical header that is old enough is confirmed by the walk. -/
theorem shiftGo_confirmed_complete (retr : ChainRetriever) (depth : Nat) (contract : Address)
    (height : Nat) :
    ∀ (es : List UnconfirmedBlockLog),
      List.Pairwise (fun a b => a.index ≤ b.index) es →
      ∀ (cur : Option CrossBlockEvent) (res : ShiftResult),
        shiftGo retr depth contract height es cur = .ok res →
        ∀ e ∈ es, ∀ hd, retr.getHeaderByNumber e.index = some hd →
          hd.hash = e.hash → e.index + depth ≤ height → e ∈ res.confirmed := by
  intro es
  induction es with
  | nil =>
    intro _ cur res _ e he
    simp at he
  | cons next rest ih =>
    intro hsort cur res hres e he hd hhd hhash hle
    have hsortRest := (List.pairwise_cons.mp hsort).2
    have hnextLe := (List.pairwise_cons.mp hsort).1
    cases hh : retr.getHeaderByNumber next.index with
    | none =>
      rw [shiftGo_head_noHeader retr depth contract height next rest cur hh] at hres
      rcases List.mem_cons.mp he with rfl | hmem
      · rw [hh] at hhd; exact Option.noConfusion hhd
      · exact ih hsortRest cur res hres e hmem hd hhd hhash hle
    | some hd2 =>
      by_cases hne : hd2.hash = next.hash
      · by_cases hfresh : height < (next.index + depth) % U64
        · exfalso
          rcases List.mem_cons.mp he with rfl | hmem
          · have h1 : (e.index + depth) % U64 ≤ e.index + depth := Nat.mod_le _ _
            omega
          · have h2 : next.index ≤ e.index := hnextLe e hmem
            have h1 : (next.index + depth) % U64 ≤ next.index + depth := Nat.mod_le _ _
            omega
        · cases hlogs : next.logs with
          | none =>
            rw [shiftGo_head_confirm_nilLogs retr depth contract height next rest cur hd2 hh hne hfresh hlogs] at hres
            cases hrec : shiftGo retr depth contract height rest cur with
            | error er => rw [hrec] at hres; exact Except.noConfusion hres
            | ok r =>
              rw [hrec] at hres
              cases hres
              rcases List.mem_cons.mp he with rfl | hmem
              · exact List.mem_cons_self _ _
              · exact List.mem_cons_of_mem _ (ih hsortRest cur r hrec e hmem hd hhd hhash hle)
          | some logs =>
            cases hpl : processLogs retr contract depth logs with
            | error er =>
              rw [shiftGo_head_logsError retr depth contract height next rest cur hd2 logs er hh hne hfresh hlogs hpl] at hres
              exact Except.noConfusion hres
            | ok triple =>
              obtain ⟨ctxs, rtxs, fins⟩ := triple
              rw [shiftGo_head_confirm retr depth contract height next rest cur hd2 logs ctxs rtxs fins hh hne hfresh hlogs hpl] at hres
              cases hrec : shiftGo retr depth contract height rest
                  (mergeOrEmit cur ((hd2.number + depth) % U64) ctxs rtxs fins).1 with
              | error er => rw [hrec] at hres; exact Except.noConfusion hres
              | ok r =>
                rw [hrec] at hres
                cases hres
                rcases List.mem_cons.mp he with rfl | hmem
                · exact List.mem_cons_self _ _
                · exact List.mem_cons_of_mem _ (ih hsortRest _ r hrec e hmem hd hhd hhash hle)
      · rw [shiftGo_head_mismatch retr depth contract height next rest cur hd2 hh hne] at hres
        rcases List.mem_cons.mp he with rfl | hmem
        · rw [hh] at hhd
          cases hhd
          exact absurd hhash hne
        · exact ih hsortRest cur res hres e hmem hd hhd hhash hle

/-! ### Claim theorems -/

/-- C1 (amended): an entry the `shift` walk confirms (extracts events from)
always has `height >= entry.index + depth` (in the code's uint64
arithmetic) and a retrievable canonical header whose hash equals the
entry's; conversely, on an index-sorted ledger every entry with a
retrievable matching header and `entry.index + depth <= height` is
confirmed. An entry whose canonical hash differs is dropped with its logs
untouched and the walk continues — even when the entry is not yet old
enough. The walk stops, leaving the entry and every later one in the
ledger, at the first entry whose canonical header is retrieved with
matching hash but which is too fresh; the original claim's stop rule for
any too-fresh entry fails when that entry's header lookup fails or its
hash mismatches (see the counterexample). -/
theorem shift_confirmation_characterization (retr : ChainRetriever) (depth : Nat)
    (contract : Address) (height : Nat) :
    (∀ (es : List UnconfirmedBlockLog) (cur : Option CrossBlockEvent) (res : ShiftResult),
      shiftGo retr depth contract height es cur = .ok res →
      ∀ e ∈ res.confirmed, e ∈ es ∧ ∃ hd, retr.getHeaderByNumber e.index = some hd ∧
        hd.hash = e.hash ∧ (e.index + depth) % U64 ≤ height)
    ∧ (∀ (es : List UnconfirmedBlockLog), List.Pairwise (fun a b => a.index ≤ b.index) es →
        ∀ (cur : Option CrossBlockEvent) (res : ShiftResult),
          shiftGo retr depth contract height es cur = .ok res →
          ∀ e ∈ es, ∀ hd, retr.getHeaderByNumber e.index = some hd →
            hd.hash = e.hash → e.index + depth ≤ height → e ∈ res.confirmed)
    ∧ (∀ (e : UnconfirmedBlockLog) (rest : List UnconfirmedBlockLog)
        (cur : Option CrossBlockEvent) (hd : Header),
        retr.getHeaderByNumber e.index = some hd → hd.hash ≠ e.hash →
        shiftGo retr depth contract height (e :: rest) cur =
          shiftGo retr depth contract height rest cur)
    ∧ (∀ (e : UnconfirmedBlockLog) (rest : List UnconfirmedBlockLog)
        (cur : Option CrossBlockEvent) (hd : Header),
        retr.getHeaderByNumber e.index = some hd → hd.hash = e.hash →
        height < (e.index + depth) % U64 →
        shiftGo retr depth contract height (e :: rest) cur =
          .ok { blocks := e :: rest, emitted := [], current := cur, confirmed := [] }) :=
  ⟨shiftGo_confirmed_sound retr depth contract height,
   shiftGo_confirmed_complete retr depth contract height,
   fun e rest cur hd hh hne => shiftGo_head_mismatch retr depth contract height e rest cur hd hh hne,
   fun e rest cur hd hh heq hf => shiftGo_head_fresh retr depth contract height e rest cur hd hh heq hf⟩

/-- Witness: the stop rule of `shift_confirmation_characterization` at a
concrete matching-but-fresh single-entry ledger. -/
theorem shift_confirmation_characterization_witness :
    shiftGo retrC1w 3 [] 6 [entC1w] none =
      .ok { blocks := [entC1w], emitted := [], current := none, confirmed := [] } :=
  (shift_confirmation_characterization retrC1w 3 [] 6).2.2.2 entC1w [] none
    { hash := [7], number := 5 } rfl rfl (by decide)

/-- Counterexample to C1 as stated: `entC1` (height 5, depth 3) is too
fresh at `shift(6)` — `6 < 5 + 3` — so the claim requires the walk to stop
and leave it in the ledger; but its canonical hash differs, and the code
drops it and leaves the ledger empty. -/
theorem shift_fresh_side_fork_dropped_cex :
    6 < (entC1.index + 3) % U64 ∧
    retrC1.getHeaderByNumber entC1.index = some { hash := [9], number := 5 } ∧
    ({ hash := [9], number := 5 } : Header).hash ≠ entC1.hash ∧
    shiftGo retrC1 3 [] 6 [entC1] none =
      .ok { blocks := [], emitted := [], current := none, confirmed := [] } :=
  ⟨by decide, rfl, by decide, rfl⟩

/-- C2 (amended): when the canonical header at `entry.index` cannot be
retrieved, `shift` logs a warning and then falls through to the drop: the
entry is removed from the ledger without any event extraction and the walk
continues exactly as if the entry were absent — it is not left in place
for a later retry. -/
theorem shift_missing_header_drops_entry (retr : ChainRetriever) (depth : Nat)
    (contract : Address) (height : Nat) (e : UnconfirmedBlockLog)
    (rest : List UnconfirmedBlockLog) (cur : Option CrossBlockEvent)
    (h : retr.getHeaderByNumber e.index = none) :
    shiftGo retr depth contract height (e :: rest) cur =
      shiftGo retr depth contract height rest cur :=
  shiftGo_head_noHeader retr depth contract height e rest cur h

/-- Witness: `shift_missing_header_drops_entry` at a concrete retriever
that answers no header lookup. -/
theorem shift_missing_header_drops_entry_witness :
    shiftGo retrC2 3 [] 10 [entC2] none = shiftGo retrC2 3 [] 10 [] none :=
  shift_missing_header_drops_entry retrC2 3 [] 10 entC2 [] none rfl

/-- Counterexample to C2 as stated: with every header lookup failing, the
claim requires `entC2` to remain in the ledger after `shift`; the code
leaves the ledger empty. -/
theorem shift_missing_header_cex :
    retrC2.getHeaderByNumber entC2.index = none ∧
    shiftGo retrC2 3 [] 10 [entC2] none =
      .ok { blocks := [], emitted := [], current := none, confirmed := [] } :=
  ⟨rfl, rfl⟩

/-- C3 (confirmed): a maker log passing the guard, with at least three
topics, data of exactly `6*hashWidth` bytes and a zero count word, decodes
to a maker `CrossTransaction` with empty payload, `from` the low-order 20
bytes of `topics[2]`, `to` the low-order 20 bytes of `data[0:32]` and
`ctxId = topics[1]`; any maker-topic log whose data is one byte shorter
produces no event at all. -/
theorem maker_boundary_decode (retr : ChainRetriever) (contract : Address) (depth : Nat)
    (v : RawLog)
    (hg : retr.getTransactionByTxHash v.txHash = some (v.blockHash, v.blockNumber))
    (hc : contract = v.address)
    (ht : 3 ≤ v.topics.length)
    (h0 : v.topics.getD 0 [] = MakerTopic)
    (hlen : v.data.length = HashLength * 6)
    (hcount : beBytesToNat (sliceN v.data (HashLength * 5) (HashLength * 6)) = 0) :
    (∃ ct : CrossTransaction,
      decodeLog retr contract depth v = .ok (.maker ct) ∧
      ct.payload = [] ∧
      ct.fromAddr = lowAddress (v.topics.getD 2 []) ∧
      ct.toAddr = sliceN v.data (HashLength - AddressLength) HashLength ∧
      ct.ctxId = v.topics.getD 1 [])
    ∧ (∀ v2 : RawLog, v2.topics.getD 0 [] = MakerTopic →
        v2.data.length = HashLength * 6 - 1 →
        decodeLog retr contract depth v2 = .ok .skip) := by
  constructor
  · exact ⟨_, (decodeLog_guard_pass retr contract depth v hg hc ht).trans
        (decodeSwitch_maker_boundary retr depth v h0 hlen hcount), rfl, rfl, rfl, rfl⟩
  · intro v2 h02 hlen2
    exact decodeLog_skip_of_switch_skip retr contract depth v2
      (decodeSwitch_maker_short retr depth v2 h02 hlen2)

/-- Witness: `maker_boundary_decode` at the concrete boundary log `logC3`
and its one-byte-short variant. -/
theorem maker_boundary_decode_witness :
    (∃ ct : CrossTransaction,
      decodeLog retrC3 [3] 6 logC3 = .ok (.maker ct) ∧
      ct.payload = [] ∧
      ct.fromAddr = lowAddress (logC3.topics.getD 2 []) ∧
      ct.toAddr = sliceN logC3.data (HashLength - AddressLength) HashLength ∧
      ct.ctxId = logC3.topics.getD 1 [])
    ∧ decodeLog retrC3 [3] 6 logC3short = .ok .skip := by
  have T := maker_boundary_decode retrC3 [3] 6 logC3 rfl rfl (by decide) (by decide)
    (by decide) (by decide)
  exact ⟨T.1, T.2 logC3short (by decide) (by decide)⟩

/-- C4 (confirmed): the maker payload slice `data[6*hashWidth :
6*hashWidth + count]` is in bounds exactly when `0 <= count <= len(data) -
6*hashWidth`, and there is a log meeting every stated maker precondition
(maker topic, three topics, `6*hashWidth` data bytes) — `logC4`, whose
count word is 1 — on which the extraction indexes out of range (a panic,
`.error ()`) instead of the log being skipped. -/
theorem maker_payload_bounds_and_oob :
    (∀ (b : Bytes) (count : Int),
        (goSlice b (HashLength * 6 : Int) ((HashLength * 6 : Int) + count)).isSome = true ↔
          0 ≤ count ∧ count ≤ (b.length : Int) - (HashLength * 6 : Int))
    ∧ logC4.topics.getD 0 [] = MakerTopic ∧ 3 ≤ logC4.topics.length ∧
      HashLength * 6 ≤ logC4.data.length
    ∧ decodeLog retrC4 [3] 6 logC4 = .error () := by
  refine ⟨?_, by decide, by decide, by decide, rfl⟩
  intro b count
  unfold goSlice
  split_ifs with h
  · simp
    omega
  · simp
    omega

/-- C7 (confirmed): a finish log passing the guard, with at least three
topics and `MakerFinishTopic` first, decodes to a modifier with
`ID = topics[1]`, status Finished and `AtBlockNumber` the log's block
number plus the depth (stated below the uint64 wrap bound). -/
theorem finish_decode (retr : ChainRetriever) (contract : Address) (depth : Nat) (v : RawLog)
    (hg : retr.getTransactionByTxHash v.txHash = some (v.blockHash, v.blockNumber))
    (hc : contract = v.address)
    (ht : 3 ≤ v.topics.length)
    (h0 : v.topics.getD 0 [] = MakerFinishTopic)
    (hov : v.blockNumber + depth < U64) :
    decodeLog retr contract depth v = .ok (.finish
      { id := v.topics.getD 1 [], atBlockNumber := v.blockNumber + depth,
        status := .finished }) := by
  rw [decodeLog_guard_pass retr contract depth v hg hc ht]
  unfold decodeSwitch
  rw [if_neg, if_neg, if_pos h0, Nat.mod_eq_of_lt hov]
  · rintro ⟨hbad, -⟩
    exact takerTopic_ne_finishTopic (hbad.symm.trans h0)
  · rintro ⟨hbad, -⟩
    exact makerTopic_ne_finishTopic (hbad.symm.trans h0)

/-- Witness: `finish_decode` at the concrete finish log `logC7` with depth
6. -/
theorem finish_decode_witness :
    decodeLog retrC7 [3] 6 logC7 = .ok (.finish
      { id := logC7.topics.getD 1 [], atBlockNumber := logC7.blockNumber + 6,
        status := .finished }) :=
  finish_decode retrC7 [3] 6 logC7 rfl rfl (by decide) (by decide) (by decide)

theorem lor_zero_iff (a b : Nat) : a ||| b = 0 ↔ a = 0 ∧ b = 0 := by
  constructor
  · intro h
    constructor
    · apply Nat.eq_of_testBit_eq
      intro i
      have ht := congrArg (fun x => Nat.testBit x i) h
      simp only [Nat.testBit_lor] at ht
      simp only [Nat.zero_testBit]
      exact (Bool.or_eq_false_iff.mp (by simpa using ht)).1
    · apply Nat.eq_of_testBit_eq
      intro i
      have ht := congrArg (fun x => Nat.testBit x i) h
      simp only [Nat.testBit_lor] at ht
      simp only [Nat.zero_testBit]
      exact (Bool.or_eq_false_iff.mp (by simpa using ht)).2
  · rintro ⟨rfl, rfl⟩
    rfl

/-- The source's emission test `len(ctxs) | len(rtxs) | len(finishes) > 0`
is exactly "at least one of the three is nonzero". -/
theorem emit_cond_iff (a b c : Nat) : 0 < (a ||| b ||| c) ↔ 0 < a ∨ 0 < b ∨ 0 < c := by
  rw [Nat.pos_iff_ne_zero, Nat.pos_iff_ne_zero, Nat.pos_iff_ne_zero, Nat.pos_iff_ne_zero]
  rw [Ne, lor_zero_iff, lor_zero_iff]
  tauto

/-- A log with fewer than three topics fails the guard and is skipped. -/
theorem decodeLog_skip_fewTopics (retr : ChainRetriever) (contract : Address)
    (depth : Nat) (v : RawLog) (ht : v.topics.length < 3) :
    decodeLog retr contract depth v = .ok .skip := by
  unfold decodeLog
  match hq : retr.getTransactionByTxHash v.txHash with
  | none => rfl
  | some (bh, bn) =>
    show (if bh = v.blockHash ∧ bn = v.blockNumber ∧ contract = v.address ∧
        3 ≤ v.topics.length then decodeSwitch retr depth v else .ok .skip) = .ok .skip
    rw [if_neg]
    rintro ⟨-, -, -, hbad⟩
    omega

/-- A maker-topic log with data shorter than six words matches no case. -/
theorem decodeSwitch_maker_shortData (retr : ChainRetriever) (depth : Nat) (v : RawLog)
    (h0 : v.topics.getD 0 [] = MakerTopic)
    (hlen : v.data.length < HashLength * 6) :
    decodeSwitch retr depth v = .ok .skip := by
  unfold decodeSwitch
  rw [if_neg, if_neg, if_neg]
  · rw [h0]; exact makerTopic_ne_finishTopic
  · rintro ⟨hbad, -⟩
    rw [h0] at hbad
    exact makerTopic_ne_takerTopic hbad
  · rintro ⟨-, hbad⟩
    omega

/-- A taker-topic log with data shorter than four words matches no case. -/
theorem decodeSwitch_taker_shortData (retr : ChainRetriever) (depth : Nat) (v : RawLog)
    (h0 : v.topics.getD 0 [] = TakerTopic)
    (hlen : v.data.length < HashLength * 4) :
    decodeSwitch retr depth v = .ok .skip := by
  unfold decodeSwitch
  rw [if_neg, if_neg, if_neg]
  · rw [h0]; exact takerTopic_ne_finishTopic
  · rintro ⟨-, hbad⟩
    omega
  · rintro ⟨hbad, -⟩
    rw [h0] at hbad
    exact makerTopic_ne_takerTopic hbad.symm

/-- A skipped log contributes nothing and the log walk continues. -/
theorem processLogs_skip_head (retr : ChainRetriever) (contract : Address) (depth : Nat)
    (v : RawLog) (rest : List RawLog)
    (h : decodeLog retr contract depth v = .ok .skip) :
    processLogs retr contract depth (v :: rest) = processLogs retr contract depth rest := by
  simp only [processLogs, h]
  cases hp : processLogs retr contract depth rest with
  | error e => rfl
  | ok t =>
    obtain ⟨a, b, c⟩ := t
    rfl

/-- A receipt log matching neither `handleTx` branch produces no action. -/
theorem handleLog_skip (env : ArchiveEnv) (chainId otherChainId : Nat)
    (otherContract : Address) (crossTxBytes : Bytes) (v : RawLog)
    (hm : v.topics.getD 0 [] ≠ MakerTopic)
    (ht : ¬(3 ≤ v.topics.length ∧ v.topics.getD 0 [] = TakerTopic ∧
        HashLength * 4 ≤ v.data.length)) :
    handleLog env chainId otherChainId otherContract crossTxBytes v = .ok [] := by
  unfold handleLog
  by_cases h0 : 0 < v.topics.length
  · rw [if_pos h0, if_neg hm]
    show (if 3 ≤ v.topics.length ∧ v.topics.getD 0 [] = TakerTopic ∧
        HashLength * 4 ≤ v.data.length then _ else _) = _
    rw [if_neg ht]
  · rw [if_neg h0]

/-- An action-less receipt log leaves the receipt walk unchanged. -/
theorem handleTxLogs_skip_head (env : ArchiveEnv) (chainId otherChainId : Nat)
    (otherContract : Address) (crossTxBytes : Bytes) (v : RawLog) (rest : List RawLog)
    (h : handleLog env chainId otherChainId otherContract crossTxBytes v = .ok []) :
    handleTxLogs env chainId otherChainId otherContract crossTxBytes (v :: rest) =
      handleTxLogs env chainId otherChainId otherContract crossTxBytes rest := by
  simp only [handleTxLogs, h]
  cases hp : handleTxLogs env chainId otherChainId otherContract crossTxBytes rest with
  | error e => rfl
  | ok b => simp

/-- C5 (amended): during confirmation processing every log failing its
variant's precondition (fewer than three topics, maker data shorter than
six words, taker data shorter than four words) is decoded as a skip and
the log walk continues unaffected; during receipt handling a log whose
first topic is not `MakerTopic` and which fails the taker precondition
produces no action and the walk continues — but a `MakerTopic` log is
handed to maker handling with no topic-count or length check at all, so a
malformed maker log aborts receipt handling (see the counterexample). -/
theorem log_precondition_skip_characterization :
    (∀ (retr : ChainRetriever) (contract : Address) (depth : Nat) (v : RawLog),
      v.topics.length < 3 → decodeLog retr contract depth v = .ok .skip)
    ∧ (∀ (retr : ChainRetriever) (contract : Address) (depth : Nat) (v : RawLog),
      v.topics.getD 0 [] = MakerTopic → v.data.length < HashLength * 6 →
      decodeLog retr contract depth v = .ok .skip)
    ∧ (∀ (retr : ChainRetriever) (contract : Address) (depth : Nat) (v : RawLog),
      v.topics.getD 0 [] = TakerTopic → v.data.length < HashLength * 4 →
      decodeLog retr contract depth v = .ok .skip)
    ∧ (∀ (retr : ChainRetriever) (contract : Address) (depth : Nat) (v : RawLog)
        (rest : List RawLog), decodeLog retr contract depth v = .ok .skip →
      processLogs retr contract depth (v :: rest) = processLogs retr contract depth rest)
    ∧ (∀ (env : ArchiveEnv) (chainId otherChainId : Nat) (otherContract : Address)
        (crossTxBytes : Bytes) (v : RawLog) (rest : List RawLog),
      v.topics.getD 0 [] ≠ MakerTopic →
      ¬(3 ≤ v.topics.length ∧ v.topics.getD 0 [] = TakerTopic ∧
          HashLength * 4 ≤ v.data.length) →
      handleLog env chainId otherChainId otherContract crossTxBytes v = .ok [] ∧
      handleTxLogs env chainId otherChainId otherContract crossTxBytes (v :: rest) =
        handleTxLogs env chainId otherChainId otherContract crossTxBytes rest) := by
  refine ⟨?_, ?_, ?_, ?_, ?_⟩
  · exact fun retr contract depth v ht => decodeLog_skip_fewTopics retr contract depth v ht
  · exact fun retr contract depth v h0 hl => decodeLog_skip_of_switch_skip retr contract depth v
      (decodeSwitch_maker_shortData retr depth v h0 hl)
  · exact fun retr contract depth v h0 hl => decodeLog_skip_of_switch_skip retr contract depth v
      (decodeSwitch_taker_shortData retr depth v h0 hl)
  · exact fun retr contract depth v rest h => processLogs_skip_head retr contract depth v rest h
  · intro env chainId otherChainId otherContract crossTxBytes v rest hm ht
    have h1 := handleLog_skip env chainId otherChainId otherContract crossTxBytes v hm ht
    exact ⟨h1, handleTxLogs_skip_head env chainId otherChainId otherContract crossTxBytes v rest h1⟩

/-- Witness: `log_precondition_skip_characterization` at a one-topic taker
log in the subscriber decoder and a short two-topic taker log in receipt
handling. -/
theorem log_precondition_skip_witness :
    decodeLog retrC5 [3] 6 logC5few = .ok .skip ∧
    handleTxLogs envC5 1 2 [9] [] [logC5t] = handleTxLogs envC5 1 2 [9] [] [] :=
  ⟨log_precondition_skip_characterization.1 retrC5 [3] 6 logC5few (by decide),
   (log_precondition_skip_characterization.2.2.2.2 envC5 1 2 [9] [] logC5t []
      (by decide) (by decide)).2⟩

/-- Counterexample to C5 as stated: a receipt log with `MakerTopic` and a
single topic fails the topic-count precondition, yet `handleTx` reads
`Topics[1]` for it, aborting the whole receipt walk instead of skipping. -/
theorem handleTx_malformed_maker_aborts_cex :
    logC5.topics.length < 3 ∧
    handleTxLogs envC5 1 2 [9] [] [logC5] = .error () :=
  ⟨by decide, rfl⟩

/-- C6 (confirmed): when `shift` confirms an entry, the confirmation
number is the confirmed header's number plus the depth; if the caller
supplied a current event with that number, the extracted makers, takers
and finishes are appended into it and nothing is emitted; otherwise a new
`CrossBlockEvent` with that number is emitted exactly when at least one
maker, taker or finish was extracted. -/
theorem confirm_merge_or_emit (retr : ChainRetriever) (depth : Nat) (contract : Address)
    (height : Nat) (e : UnconfirmedBlockLog) (cur : Option CrossBlockEvent) (hd : Header)
    (logs : List RawLog) (ctxs : List CrossTransaction) (rtxs : List ReceptTransaction)
    (fins : List CrossTransactionModifier)
    (hh : retr.getHeaderByNumber e.index = some hd)
    (heq : hd.hash = e.hash)
    (hold : ¬ height < (e.index + depth) % U64)
    (hlogs : e.logs = some logs)
    (hpl : processLogs retr contract depth logs = .ok (ctxs, rtxs, fins))
    (hov : hd.number + depth < U64) :
    shiftGo retr depth contract height [e] cur =
      .ok { blocks := []
            emitted := (mergeOrEmit cur (hd.number + depth) ctxs rtxs fins).2
            current := (mergeOrEmit cur (hd.number + depth) ctxs rtxs fins).1
            confirmed := [e] }
    ∧ (∀ ev, cur = some ev → ev.number % U64 = hd.number + depth →
        mergeOrEmit cur (hd.number + depth) ctxs rtxs fins =
          (some { ev with confirmedMaker := ev.confirmedMaker ++ ctxs
                          confirmedTaker := ev.confirmedTaker ++ rtxs
                          confirmedFinish := ev.confirmedFinish ++ fins }, []))
    ∧ ((∀ ev, cur = some ev → ev.number % U64 ≠ hd.number + depth) →
        mergeOrEmit cur (hd.number + depth) ctxs rtxs fins =
          (cur, if ctxs ≠ [] ∨ rtxs ≠ [] ∨ fins ≠ []
            then [{ number := hd.number + depth, confirmedMaker := ctxs,
                    confirmedTaker := rtxs, confirmedFinish := fins }]
            else [])) := by
  have hiff : (0 < ctxs.length ||| rtxs.length ||| fins.length) ↔
      (ctxs ≠ [] ∨ rtxs ≠ [] ∨ fins ≠ []) := by
    rw [emit_cond_iff]
    simp [List.length_pos]
  refine ⟨?_, ?_, ?_⟩
  · rw [shiftGo_head_confirm retr depth contract height e [] cur hd logs ctxs rtxs fins hh heq hold hlogs hpl,
      Nat.mod_eq_of_lt hov]
    simp [shiftGo]
  · intro ev hcur hnum
    subst hcur
    simp only [mergeOrEmit]
    rw [if_pos hnum]
  · intro hne
    cases cur with
    | none =>
      simp only [mergeOrEmit]
      rw [if_congr hiff rfl rfl]
    | some ev =>
      simp only [mergeOrEmit]
      rw [if_neg (hne ev rfl), if_congr hiff rfl rfl]

/-- Witness: `confirm_merge_or_emit` at a concrete confirmable entry with
an empty log list and no current event: nothing is emitted. -/
theorem confirm_merge_or_emit_witness :
    shiftGo retrC6 3 [] 10 [entC6] none =
      .ok { blocks := [], emitted := [], current := none, confirmed := [entC6] } :=
  (confirm_merge_or_emit retrC6 3 [] 10 entC6 none { hash := [7], number := 5 }
    [] [] [] [] rfl rfl (by decide) rfl rfl (by decide)).1

/-- C9 (confirmed): for a confirmed taker event with the chain-client
oracles succeeding, a settlement transaction is built and submitted on the
counterpart chain iff the receipt's destination id equals the counterpart
chain id (through `.Uint64()`); the built transaction carries the fetched
nonce, the suggested gas price, the contract call-encoding of the
receipt's fields, the counterpart contract address, and a signature bound
to the counterpart chain id; a failed submission yields the logged,
abandoned `sendFailed` outcome. -/
theorem taker_relay_characterization (env : ArchiveEnv) (chainId otherChainId : Nat)
    (otherContract : Address) (v : RawLog) (rtx : ReceptTransaction) (n g : Nat) (d : Bytes)
    (hn : env.nonceAt = some n)
    (hdec : takerDecode chainId v = some rtx)
    (hg : env.suggestGasPrice = some g)
    (hd : env.constructData rtx = some d)
    (hs : env.signEthOk = true) :
    (rtx.destinationId % U64 = otherChainId % U64 →
      takerEvent env chainId otherChainId otherContract v =
        (if env.sendTxOk then
          .ok (.submitted { tx := { nonce := n, toAddr := otherContract, value := 0,
                                    gasLimit := 250000, gasPrice := g, data := d },
                            signerChainId := int64OfBig (otherChainId % U64) })
        else
          .ok (.sendFailed { tx := { nonce := n, toAddr := otherContract, value := 0,
                                     gasLimit := 250000, gasPrice := g, data := d },
                             signerChainId := int64OfBig (otherChainId % U64) })))
    ∧ (rtx.destinationId % U64 ≠ otherChainId % U64 →
      takerEvent env chainId otherChainId otherContract v = .ok .skipped) := by
  constructor
  · intro hdest
    simp only [takerEvent, hn, hdec]
    rw [if_pos hdest]
    simp only [hg, hd, hs]
    rfl
  · intro hdest
    simp only [takerEvent, hn, hdec]
    rw [if_neg hdest]

/-- Witness: `taker_relay_characterization` at a concrete taker log whose
destination id matches the counterpart chain id 2. -/
theorem taker_relay_characterization_witness :
    takerEvent envC9 1 2 [9] logC9 =
      .ok (.submitted { tx := { nonce := 5, toAddr := [9], value := 0,
                                gasLimit := 250000, gasPrice := 3, data := [1, 2] },
                        signerChainId := 2 }) :=
  (taker_relay_characterization envC9 1 2 [9] logC9
      { ctxId := List.replicate 31 0 ++ [9], txHash := zeroHash,
        fromAddr := List.replicate 20 0, toAddr := List.replicate 19 0 ++ [8],
        destinationId := 2, chainId := 1 }
      5 3 [1, 2] rfl (by decide) rfl rfl rfl).1 (by decide)

/-- C10 (code bug): with a failing `SignCtx` (missing key) on a
well-formed maker log and no `--data` bytes, `MakeEvent` does not halt; it
logs the error, continues, rlp-encodes the nil signed transaction and
prints it as the relay record — an unsigned record is emitted. -/
theorem make_event_sign_failure_emits_unsigned :
    (∀ ct : CrossTransaction, envC10.signCtx ct = none) ∧
    makeEvent envC10 1 [] logC10 = .ok (.printedRecord none) :=
  ⟨fun _ => rfl, rfl⟩

theorem mapMem_iff (m : EventMap) (k : Hash) :
    mapMem m k = true ↔ ∃ p ∈ m, p.1 = k := by
  simp [mapMem, List.any_eq_true]

theorem mapMem_mapDelete (m : EventMap) (f k : Hash) :
    mapMem (mapDelete m f) k = true ↔ mapMem m k = true ∧ k ≠ f := by
  simp only [mapMem_iff, mapDelete, List.mem_filter, decide_eq_true_eq]
  constructor
  · rintro ⟨p, ⟨hm, hne⟩, rfl⟩
    exact ⟨⟨p, hm, rfl⟩, hne⟩
  · rintro ⟨⟨p, hm, rfl⟩, hne⟩
    exact ⟨p, ⟨hm, hne⟩, rfl⟩

theorem mapMem_mapInsert (m : EventMap) (j : Hash) (v : RawLog) (k : Hash) :
    mapMem (mapInsert m j v) k = true ↔ k = j ∨ mapMem m k = true := by
  simp only [mapInsert, mapMem_iff, List.mem_cons]
  constructor
  · rintro ⟨p, hp | hp, h1⟩
    · left; rw [hp] at h1; exact h1.symm
    · right
      rcases (mapMem_mapDelete m j k).mp ((mapMem_iff _ _).mpr ⟨p, hp, h1⟩) with ⟨hm, -⟩
      exact (mapMem_iff _ _).mp hm
  · rintro (rfl | hmem)
    · exact ⟨(k, v), Or.inl rfl, rfl⟩
    · by_cases hkj : k = j
      · exact ⟨(j, v), Or.inl rfl, hkj.symm⟩
      · obtain ⟨p, hp, h1⟩ := hmem
        refine ⟨p, Or.inr (List.mem_filter.mpr ⟨hp, ?_⟩), h1⟩
        simp only [decide_eq_true_eq]
        rw [h1]
        exact hkj

theorem mapMem_foldl_mapDelete (fs : List Hash) :
    ∀ (m : EventMap) (k : Hash),
      mapMem (fs.foldl mapDelete m) k = true ↔ mapMem m k = true ∧ k ∉ fs := by
  induction fs with
  | nil => intro m k; simp
  | cons f fs ih =>
    intro m k
    rw [List.foldl_cons, ih (mapDelete m f) k, mapMem_mapDelete]
    simp [List.mem_cons]
    tauto

theorem scanLogStep_finishes (st : ScanState) (v : RawLog) :
    (scanLogStep st v).finishes = st.finishes ++ finContrib v := by
  unfold scanLogStep finContrib
  split_ifs <;> simp

theorem scanLogStep_makerMem (st : ScanState) (v : RawLog) (k : Hash) :
    mapMem (scanLogStep st v).makerEvents k = true ↔
      k ∈ makerContrib v ∨ mapMem st.makerEvents k = true := by
  unfold scanLogStep makerContrib
  split_ifs <;> simp [mapMem_mapInsert]

theorem scanLogStep_takerMem (st : ScanState) (v : RawLog) (k : Hash) :
    mapMem (scanLogStep st v).takerEvents k = true ↔
      k ∈ takerContrib v ∨ mapMem st.takerEvents k = true := by
  unfold scanLogStep takerContrib
  split_ifs <;> simp [mapMem_mapInsert]

theorem logsFoldl_finishes (logs : List RawLog) :
    ∀ st : ScanState,
      (logs.foldl scanLogStep st).finishes = st.finishes ++ logsCollect finContrib logs := by
  induction logs with
  | nil => intro st; simp [logsCollect]
  | cons v rest ih =>
    intro st
    rw [List.foldl_cons, ih (scanLogStep st v), scanLogStep_finishes]
    simp [logsCollect]

theorem logsFoldl_makerMem (logs : List RawLog) :
    ∀ (st : ScanState) (k : Hash),
      mapMem (logs.foldl scanLogStep st).makerEvents k = true ↔
        k ∈ logsCollect makerContrib logs ∨ mapMem st.makerEvents k = true := by
  induction logs with
  | nil => intro st k; simp [logsCollect]
  | cons v rest ih =>
    intro st k
    rw [List.foldl_cons, ih (scanLogStep st v) k, scanLogStep_makerMem]
    simp only [logsCollect, List.mem_append]
    tauto

theorem logsFoldl_takerMem (logs : List RawLog) :
    ∀ (st : ScanState) (k : Hash),
      mapMem (logs.foldl scanLogStep st).takerEvents k = true ↔
        k ∈ logsCollect takerContrib logs ∨ mapMem st.takerEvents k = true := by
  induction logs with
  | nil => intro st k; simp [logsCollect]
  | cons v rest ih =>
    intro st k
    rw [List.foldl_cons, ih (scanLogStep st v) k, scanLogStep_takerMem]
    simp only [logsCollect, List.mem_append]
    tauto

/-- The walk over one block's transactions: finishes accumulate in order;
taker entries only accumulate; and the maker map holds exactly the inserted
keys not named by any finish collected so far (the per-transaction delete
loop removes every finish id after each contract transaction). -/
theorem scanTxsFold_char (c : Address) (txs : List ScanTx) :
    ∀ st : ScanState, (∀ j, mapMem st.makerEvents j = true → j ∉ st.finishes) →
      ((txs.foldl (scanTxStep c) st).finishes =
        st.finishes ++ blockCollect c finContrib txs)
      ∧ (∀ k, mapMem (txs.foldl (scanTxStep c) st).takerEvents k = true ↔
          k ∈ blockCollect c takerContrib txs ∨ mapMem st.takerEvents k = true)
      ∧ (∀ k, mapMem (txs.foldl (scanTxStep c) st).makerEvents k = true ↔
          ((k ∈ blockCollect c makerContrib txs ∨ mapMem st.makerEvents k = true) ∧
            k ∉ st.finishes ++ blockCollect c finContrib txs)) := by
  induction txs with
  | nil =>
    intro st hco
    refine ⟨by simp [blockCollect], fun k => by simp [blockCollect], fun k => ?_⟩
    simp only [List.foldl_nil, blockCollect, List.mem_append, List.not_mem_nil, or_false,
      List.find?_nil, false_or, not_false_eq_true, and_true]
    constructor
    · intro h; exact ⟨h, hco k h⟩
    · intro h; exact h.1
  | cons tx txs ih =>
    intro st hco
    rw [List.foldl_cons]
    have hsplit : ∀ (f : RawLog → List Hash),
        blockCollect c f (tx :: txs) = txCollect c f tx ++ blockCollect c f txs :=
      fun f => rfl
    match htx : tx.toAddr with
    | none =>
      have hstep : scanTxStep c st tx = st := by simp only [scanTxStep, htx]
      have hcol : ∀ (f : RawLog → List Hash), txCollect c f tx = [] := by
        intro f; simp only [txCollect, htx]
      obtain ⟨h1, h2, h3⟩ := ih st hco
      rw [hstep]
      refine ⟨?_, fun k => ?_, fun k => ?_⟩
      · rw [hsplit, hcol]; simpa using h1
      · rw [hsplit, hcol]; simpa using h2 k
      · rw [hsplit, hcol, hsplit finContrib, hcol finContrib]
        simpa using h3 k
    | some a =>
      by_cases hac : a = c
      · have hstep : scanTxStep c st tx =
            { tx.logs.foldl scanLogStep st with
              makerEvents := (tx.logs.foldl scanLogStep st).finishes.foldl mapDelete
                (tx.logs.foldl scanLogStep st).makerEvents } := by
          simp only [scanTxStep, htx]
          rw [if_pos hac]
        have hcol : ∀ (f : RawLog → List Hash),
            txCollect c f tx = logsCollect f tx.logs := by
          intro f; simp only [txCollect, htx]; rw [if_pos hac]
        set st2 := tx.logs.foldl scanLogStep st with hst2
        have hfin2 : st2.finishes = st.finishes ++ logsCollect finContrib tx.logs :=
          logsFoldl_finishes tx.logs st
        have hstC : ∀ j, mapMem ((scanTxStep c st tx)).makerEvents j = true →
            j ∉ (scanTxStep c st tx).finishes := by
          intro j hj
          rw [hstep] at hj ⊢
          exact ((mapMem_foldl_mapDelete st2.finishes st2.makerEvents j).mp hj).2
        obtain ⟨h1, h2, h3⟩ := ih (scanTxStep c st tx) hstC
        have hfinStep : (scanTxStep c st tx).finishes = st2.finishes := by rw [hstep]
        have htakStep : ∀ k, mapMem (scanTxStep c st tx).takerEvents k = true ↔
            k ∈ logsCollect takerContrib tx.logs ∨ mapMem st.takerEvents k = true := by
          intro k
          rw [hstep]
          exact logsFoldl_takerMem tx.logs st k
        have hmakStep : ∀ k, mapMem (scanTxStep c st tx).makerEvents k = true ↔
            ((k ∈ logsCollect makerContrib tx.logs ∨ mapMem st.makerEvents k = true) ∧
              k ∉ st.finishes ++ logsCollect finContrib tx.logs) := by
          intro k
          rw [hstep]
          rw [mapMem_foldl_mapDelete st2.finishes st2.makerEvents k]
          rw [logsFoldl_makerMem tx.logs st k, hfin2]
        refine ⟨?_, fun k => ?_, fun k => ?_⟩
        · rw [h1, hfinStep, hfin2, hsplit, hcol]
          simp
        · rw [h2 k, hsplit, hcol]
          rw [htakStep k]
          simp only [List.mem_append]
          tauto
        · rw [h3 k, hsplit, hcol, hsplit finContrib, hcol finContrib,
            hfinStep, hfin2]
          rw [hmakStep k]
          simp only [List.mem_append, not_or]
          tauto
      · have hstep : scanTxStep c st tx = st := by
          simp only [scanTxStep, htx]; rw [if_neg hac]
        have hcol : ∀ (f : RawLog → List Hash), txCollect c f tx = [] := by
          intro f; simp only [txCollect, htx]; rw [if_neg hac]
        obtain ⟨h1, h2, h3⟩ := ih st hco
        rw [hstep]
        refine ⟨?_, fun k => ?_, fun k => ?_⟩
        · rw [hsplit, hcol]; simpa using h1
        · rw [hsplit, hcol]; simpa using h2 k
        · rw [hsplit, hcol, hsplit finContrib, hcol finContrib]
          simpa using h3 k

/-- `parseContractLogs` over a whole block range, relative to any coherent
initial state. -/
theorem parseContractLogs_char (c : Address) (blocks : List (List ScanTx)) :
    ∀ st : ScanState, (∀ j, mapMem st.makerEvents j = true → j ∉ st.finishes) →
      ((parseContractLogs c blocks st).finishes =
        st.finishes ++ blocksCollect c finContrib blocks)
      ∧ (∀ k, mapMem (parseContractLogs c blocks st).takerEvents k = true ↔
          k ∈ blocksCollect c takerContrib blocks ∨ mapMem st.takerEvents k = true)
      ∧ (∀ k, mapMem (parseContractLogs c blocks st).makerEvents k = true ↔
          ((k ∈ blocksCollect c makerContrib blocks ∨ mapMem st.makerEvents k = true) ∧
            k ∉ st.finishes ++ blocksCollect c finContrib blocks)) := by
  induction blocks with
  | nil =>
    intro st hco
    refine ⟨by simp [parseContractLogs, blocksCollect],
      fun k => by simp [parseContractLogs, blocksCollect], fun k => ?_⟩
    simp only [parseContractLogs, List.foldl_nil, blocksCollect, List.mem_append,
      List.not_mem_nil, or_false, false_or, not_false_eq_true, and_true]
    constructor
    · intro h; exact ⟨h, hco k h⟩
    · intro h; exact h.1
  | cons blk rest ih =>
    intro st hco
    have hun : parseContractLogs c (blk :: rest) st =
        parseContractLogs c rest (blk.foldl (scanTxStep c) st) := rfl
    have hsplit : ∀ (f : RawLog → List Hash),
        blocksCollect c f (blk :: rest) = blockCollect c f blk ++ blocksCollect c f rest :=
      fun f => rfl
    obtain ⟨b1, b2, b3⟩ := scanTxsFold_char c blk st hco
    have hco1 : ∀ j, mapMem (blk.foldl (scanTxStep c) st).makerEvents j = true →
        j ∉ (blk.foldl (scanTxStep c) st).finishes := by
      intro j hj
      rw [b1]
      exact ((b3 j).mp hj).2
    obtain ⟨r1, r2, r3⟩ := ih (blk.foldl (scanTxStep c) st) hco1
    rw [hun]
    refine ⟨?_, fun k => ?_, fun k => ?_⟩
    · rw [r1, b1, hsplit]
      simp
    · rw [r2 k, b2 k, hsplit]
      simp only [List.mem_append]
      tauto
    · rw [r3 k, b3 k, b1, hsplit, hsplit finContrib]
      simp only [List.mem_append, not_or]
      tauto

/-- C8 (confirmed): after `parseCrossChainEvents`, each chain's pending
maker map holds exactly the maker ctxIds of its scan that are not among
that chain's finish ids, and each chain's pending taker map holds exactly
its taker ctxIds that are not among the counterpart chain's finish ids —
so every ctxId with a parsed finish event is evicted from the origin
chain's maker set and the counterpart chain's taker set by the end of the
scan, and every ctxId without one remains. -/
theorem parse_cross_chain_finish_eviction (mc sc : Address)
    (mainBlocks subBlocks : List (List ScanTx)) :
    (∀ k, mapMem (parseCrossChainEvents mc sc mainBlocks subBlocks).mainMakers k = true ↔
      (k ∈ blocksCollect mc makerContrib mainBlocks ∧
        k ∉ blocksCollect mc finContrib mainBlocks))
    ∧ (∀ k, mapMem (parseCrossChainEvents mc sc mainBlocks subBlocks).subTakers k = true ↔
      (k ∈ blocksCollect sc takerContrib subBlocks ∧
        k ∉ blocksCollect mc finContrib mainBlocks))
    ∧ (∀ k, mapMem (parseCrossChainEvents mc sc mainBlocks subBlocks).subMakers k = true ↔
      (k ∈ blocksCollect sc makerContrib subBlocks ∧
        k ∉ blocksCollect sc finContrib subBlocks))
    ∧ (∀ k, mapMem (parseCrossChainEvents mc sc mainBlocks subBlocks).mainTakers k = true ↔
      (k ∈ blocksCollect mc takerContrib mainBlocks ∧
        k ∉ blocksCollect sc finContrib subBlocks))
    ∧ (parseContractLogs mc mainBlocks ⟨[], [], []⟩).finishes =
        blocksCollect mc finContrib mainBlocks
    ∧ (parseContractLogs sc subBlocks ⟨[], [], []⟩).finishes =
        blocksCollect sc finContrib subBlocks := by
  have hco : ∀ j, mapMem (⟨[], [], []⟩ : ScanState).makerEvents j = true →
      j ∉ (⟨[], [], []⟩ : ScanState).finishes := by
    intro j hj
    simp [mapMem] at hj
  obtain ⟨m1, m2, m3⟩ := parseContractLogs_char mc mainBlocks ⟨[], [], []⟩ hco
  obtain ⟨s1, s2, s3⟩ := parseContractLogs_char sc subBlocks ⟨[], [], []⟩ hco
  refine ⟨fun k => ?_, fun k => ?_, fun k => ?_, fun k => ?_, ?_, ?_⟩
  · show mapMem (parseContractLogs mc mainBlocks ⟨[], [], []⟩).makerEvents k = true ↔ _
    rw [m3 k]
    simp [mapMem]
  · show mapMem ((parseContractLogs mc mainBlocks ⟨[], [], []⟩).finishes.foldl mapDelete
      (parseContractLogs sc subBlocks ⟨[], [], []⟩).takerEvents) k = true ↔ _
    rw [mapMem_foldl_mapDelete, s2 k, m1]
    simp [mapMem]
  · show mapMem (parseContractLogs sc subBlocks ⟨[], [], []⟩).makerEvents k = true ↔ _
    rw [s3 k]
    simp [mapMem]
  · show mapMem ((parseContractLogs sc subBlocks ⟨[], [], []⟩).finishes.foldl mapDelete
      (parseContractLogs mc mainBlocks ⟨[], [], []⟩).takerEvents) k = true ↔ _
    rw [mapMem_foldl_mapDelete, m2 k, s1]
    simp [mapMem]
  · simpa using m1
  · simpa using s1
